import Mathlib

/-!
Verification of the Hasher build recipe (`build.py`) and the xeno-style
dependency-injected build engine it drives.

The recipe itself (environments, providers `cd_local`/`sources`/`headers`,
tasks `objects`/`executable`) is embedded from `src/build.py`.  The engine
(registry, resolver, executor, staleness checker, entry point) is not part of
the repository's sources; it is modelled from the specification, as marked in
the doc comments below.
-/

namespace Hasher

/-! ## Environments (xeno.shell.Environment) -/

/-- A shell environment: an association list from variable names to lists of
flag tokens.  Models `xeno.shell.Environment` at the granularity the recipe
uses (`append` of a flag onto a variable). -/
structure Env where
  vars : List (String × List String)
deriving DecidableEq, Repr

/-- Look up the token list bound to variable `k` (empty if unbound). -/
def lookupVar (e : Env) (k : String) : List String :=
  match e.vars.find? (fun p => p.1 = k) with
  | some p => p.2
  | none => []

/-- `Environment.append(K=v)`: rebind `k` to its previous tokens with `v`
appended (binding `k` fresh when it was absent). -/
def envAppend (e : Env) (k : String) (v : String) : Env :=
  ⟨(k, lookupVar e k ++ [v]) :: e.vars.filter (fun p => ¬ p.1 = k)⟩

/-- Modelled from the spec: the contents of the external base environment
`ENV` (from `xeno.recipes.cxx`) are unspecified; it is modelled as an opaque
concrete value with no bound variables.  No claim depends on its contents. -/
def ENV : Env := ⟨[]⟩

/-- `LINK_ENV = Environment(ENV).append(LDFLAGS="-lcrypto")` from
`src/build.py` line 16: a value copy of `ENV` with `"-lcrypto"` appended to
its `LDFLAGS`. -/
def LINK_ENV : Env := envAppend ENV "LDFLAGS" "-lcrypto"

/-! ### A store of environment objects

Python's `Environment(ENV)` constructor allocates a fresh object; `.append`
mutates the object it is called on.  To state the frame property (the base
`ENV` object is untouched by the construction of `LINK_ENV`) we model the
object heap explicitly: a store is a list of environments, references are
indices. -/

/-- The heap of environment objects; references are list indices. -/
abbrev Store := List Env

/-- `Environment(base)`: allocate a fresh copy of the environment at `r`,
returning the new store and the fresh reference. -/
def storeCopyAlloc (st : Store) (r : Nat) : Store × Nat :=
  (st ++ [(st.getD r ⟨[]⟩)], st.length)

/-- In-place `append(k=v)` on the environment object at reference `r`. -/
def storeAppendAt (st : Store) (r : Nat) (k v : String) : Store :=
  st.set r (envAppend (st.getD r ⟨[]⟩) k v)

/-- The construction of `LINK_ENV` as a heap computation: copy the object at
`rENV` into a fresh cell, then append `-lcrypto` to the copy's `LDFLAGS`.
Returns the final store and the reference of the new object. -/
def linkEnvInit (st : Store) (rENV : Nat) : Store × Nat :=
  let p := storeCopyAlloc st rENV
  (storeAppendAt p.1 p.2 "LDFLAGS" "-lcrypto", p.2)

/-! ## Compile recipes (xeno.recipes.cxx.compile) -/

/-- The directory holding `build.py`; `cd_local` changes the working
directory to it.  Modelled as an abstract fixed path (trailing slash kept so
that full paths are plain string concatenations). -/
def scriptDir : String := "src/"

/-- A call to the external `compile` recipe, recorded with the arguments the
recipe passes: the source paths, the `headers` keyword, the `obj` flag, the
`target` keyword, and the `env` keyword (`none` means the library default
base environment `ENV` is used implicitly). -/
structure CompileCall where
  srcs : List String
  headers : List String
  obj : Bool
  target : Option String
  env : Option Env
deriving DecidableEq, Repr

/-- The object-file path produced for a source path.  The exact naming
convention lives in the external `compile` recipe; modelled as the source
path with `.o` appended. -/
def objPath (p : String) : String := p ++ ".o"

/-- The output paths a compile call produces: the linked target (placed in
the script directory) when `target` is given, else one object file per
source when `obj` is set. -/
def callOutputs (c : CompileCall) : List String :=
  match c.target with
  | some t => [scriptDir ++ t]
  | none => if c.obj then c.srcs.map objPath else []

/-- `compile(src, headers=headers, obj=True)` as invoked by `objects`
(`src/build.py` line 40). -/
def objCall (src : String) (hdrs : List String) : CompileCall :=
  { srcs := [src], headers := hdrs, obj := true, target := none, env := none }

/-- `compile(objs, target="hasher", env=LINK_ENV)` as invoked by
`executable` (`src/build.py` line 46). -/
def linkCall (objs : List String) : CompileCall :=
  { srcs := objs, headers := [], obj := false, target := some "hasher",
    env := some LINK_ENV }

/-! ## Values exchanged between registry entries -/

/-- The value a provider or task yields: `unit` for Python `None`, a list of
paths (globs), or one or several compile-recipe artifacts. -/
inductive Value where
  | unit : Value
  | paths : List String → Value
  | call : CompileCall → Value
  | calls : List CompileCall → Value
deriving DecidableEq, Repr

/-- `Recipe.components()`: the output paths carried by an artifact value. -/
def componentsOf : Value → List String
  | Value.call c => callOutputs c
  | Value.calls cs => cs.flatMap callOutputs
  | _ => []

/-! ## Filesystem model -/

/-- One file on disk: its directory (with trailing slash), stem, extension
and modification time.  The full path is the plain concatenation of the
three name parts. -/
structure FileEnt where
  dir : String
  stem : String
  ext : String
  mtime : Nat
deriving DecidableEq, Repr

/-- The full path of a file entry. -/
def FileEnt.path (f : FileEnt) : String := f.dir ++ f.stem ++ f.ext

/-- Filesystem state: the working directory (with trailing slash), the files
on disk, and a logical clock used to timestamp newly produced outputs. -/
structure FS where
  cwd : String
  files : List FileEnt
  clock : Nat
deriving DecidableEq, Repr

/-- Modification time of the file at path `p`, if it exists. -/
def mtimeOf (fs : FS) (p : String) : Option Nat :=
  (fs.files.find? (fun f => f.path = p)).map (·.mtime)

/-- `Path.cwd().glob("*<ext>")`: the paths of files in the working directory
with the given extension. -/
def glob (fs : FS) (ext : String) : List String :=
  ((fs.files.filter (fun f => f.dir = fs.cwd ∧ f.ext = ext)).map FileEnt.path)

/-- Write (create or overwrite) the file at path `p` with the current clock
as its modification time. -/
def writeOut (fs : FS) (p : String) : FS :=
  if (fs.files.any (fun f => f.path = p)) then
    { fs with
      files := fs.files.map
        (fun f => if f.path = p then { f with mtime := fs.clock } else f) }
  else
    { fs with files := fs.files ++ [⟨"", p, "", fs.clock⟩] }

/-- Write every path in `ps`, then advance the clock. -/
def writeOuts (fs : FS) (ps : List String) : FS :=
  let fs1 := ps.foldl writeOut fs
  { fs1 with clock := fs1.clock + 1 }

/-! ## The build engine

Modelled from the spec: the xeno build engine (Registry, Resolver, Executor,
Staleness Checker, entry point) is not part of this repository's sources;
every definition in this section follows the specification's contracts
(sections 3, 4 and 7). -/

/-- Modelled from the spec: a registry entry is a provider (pure value
producer, always re-evaluated) or a task (file-backed build step, subject to
staleness skipping). -/
inductive Kind where
  | provider : Kind
  | task : Kind
deriving DecidableEq, Repr

/-- Modelled from the spec: a RegistryEntry — its unique name, kind, ordered
dependency (parameter) names, default flag, underlying function, the output
paths its artifact declares, the input paths derived from its resolved
arguments, and how to synthesize its result from existing files when it is
up to date. -/
structure EntrySpec where
  name : String
  kind : Kind
  params : List String
  isDefault : Bool
  outputsOf : List Value → List String
  inputsOf : List Value → List String
  fn : List Value → FS → Except String (Value × FS)
  synth : List Value → Value

/-- Modelled from the spec: a registry is the list of declared entries, in
declaration order. -/
abbrev Registry := List EntrySpec

/-- Modelled from the spec: the error taxonomy of section 7 (the
registration-time errors and the resolution/execution-time errors the claims
mention). -/
inductive BuildError where
  | duplicateName : String → BuildError
  | duplicateDefault : String → BuildError
  | unknownDependency : String → BuildError
  | cyclicDependency : String → BuildError
  | noDefaultTask : BuildError
  | missingArgument : String → BuildError
  | taskExecution : String → String → BuildError
deriving DecidableEq, Repr

/-- `lookup(name)` on the registry. -/
def lookupEntry (reg : Registry) (n : String) : Option EntrySpec :=
  reg.find? (fun e => e.name = n)

/-- Modelled from the spec: `register` fails with `DuplicateNameError` on a
reused name and with `DuplicateDefaultError` when a default already exists. -/
def register (reg : Registry) (e : EntrySpec) : Except BuildError Registry :=
  if reg.any (fun d => d.name = e.name) then
    .error (.duplicateName e.name)
  else if e.isDefault ∧ reg.any (fun d => d.isDefault) then
    .error (.duplicateDefault e.name)
  else
    .ok (reg ++ [e])

/-! ### Resolver -/

/-- Modelled from the spec: depth-first resolution.  `visiting` is the stack
of names on the current path (cycle detection), `acc` the visited entries in
postorder (dependencies before dependents).  Dependencies of an entry are
visited in the declaration order of its parameter names.  The fuel bounds
the recursion depth; with the cycle check it never runs out when it is at
least the registry size plus one. -/
def resolveAux (reg : Registry) :
    Nat → List String → List String → String → Except BuildError (List String)
  | 0, _, _, n => .error (.cyclicDependency n)
  | fuel + 1, visiting, acc, n =>
    if n ∈ acc then .ok acc
    else if n ∈ visiting then .error (.cyclicDependency n)
    else
      match lookupEntry reg n with
      | none => .error (.unknownDependency n)
      | some e => do
        let acc1 ← e.params.foldlM
          (fun a p => resolveAux reg fuel (n :: visiting) a p) acc
        .ok (acc1 ++ [n])

/-- Modelled from the spec: `resolve(targetName)` returns the names of the
entries the target transitively requires, in topological order
(dependencies before dependents), ending with the target itself. -/
def resolve (reg : Registry) (target : String) : Except BuildError (List String) :=
  resolveAux reg (reg.length + 1) [] [] target

/-! ### Executor and staleness checker -/

/-- Modelled from the spec: one ExecutionRecord entry — the entry's name,
its recorded value, whether its function was (re)executed this run, and the
output paths it declared. -/
structure RecordEntry where
  name : String
  value : Value
  fresh : Bool
  outs : List String
deriving DecidableEq, Repr

/-- Modelled from the spec: the state of one build run — the execution
record, the filesystem, and the log of underlying-function invocations. -/
structure RunState where
  record : List RecordEntry
  fs : FS
  invoked : List String
deriving DecidableEq, Repr

/-- Find the record entry for name `n`, if `n` has been executed. -/
def lookupRecord (rec : List RecordEntry) (n : String) : Option RecordEntry :=
  rec.find? (fun r => r.name = n)

/-- Gather the already-recorded values of an entry's parameters, in
parameter order. -/
def gatherArgs (rec : List RecordEntry) (ps : List String) : Option (List Value) :=
  ps.mapM (fun p => (lookupRecord rec p).map (·.value))

/-- Modelled from the spec: a declared input path was just (re)produced by
an upstream entry executed in this run. -/
def freshInputs (rec : List RecordEntry) (ins : List String) : Bool :=
  ins.any (fun i => rec.any (fun r => r.fresh ∧ i ∈ r.outs))

/-- Output path `o` is strictly older on disk than input path `i`. -/
def olderThan (fs : FS) (o i : String) : Bool :=
  match mtimeOf fs o, mtimeOf fs i with
  | some a, some b => a < b
  | _, _ => false

/-- Modelled from the spec: the staleness policy of section 4.4 — stale when
some output is missing, or some output is older than some input, or some
input was just rebuilt upstream. -/
def isStale (fs : FS) (outs ins : List String) (freshIn : Bool) : Bool :=
  outs.any (fun o => (mtimeOf fs o).isNone)
    || outs.any (fun o => ins.any (fun i => olderThan fs o i))
    || freshIn

/-- Modelled from the spec: the executor's re-run decision.  Providers are
always re-evaluated; a task with no declared file outputs is always stale;
otherwise the staleness policy decides. -/
def staleDecision (st : RunState) (e : EntrySpec) (args : List Value) : Bool :=
  match e.kind with
  | Kind.provider => true
  | Kind.task =>
    let outs := e.outputsOf args
    outs.isEmpty
      || isStale st.fs outs (e.inputsOf args)
          (freshInputs st.record (e.inputsOf args))

/-- Modelled from the spec: execute a single entry.  Skip if already
recorded (memoization).  Otherwise gather the argument values; if the entry
is up to date, synthesize its result from the existing files without
invoking the function; otherwise invoke the underlying function, record its
value with the fresh flag set, write its declared outputs, and log the
invocation.  A function failure is wrapped as `TaskExecutionError` carrying
the entry name and the original failure; the error also carries the run
state at the failure (completed artifacts stay on disk — no rollback). -/
def executeEntry (e : EntrySpec) (st : RunState) :
    Except (BuildError × RunState) RunState :=
  if (lookupRecord st.record e.name).isSome then .ok st
  else
    match gatherArgs st.record e.params with
    | none => .error (.missingArgument e.name, st)
    | some args =>
      if staleDecision st e args then
        match e.fn args st.fs with
        | .error msg => .error (.taskExecution e.name msg, st)
        | .ok (v, fs1) =>
          .ok { record := st.record ++ [⟨e.name, v, true, e.outputsOf args⟩],
                fs := writeOuts fs1 (e.outputsOf args),
                invoked := st.invoked ++ [e.name] }
      else
        .ok { st with
              record := st.record ++
                [⟨e.name, e.synth args, false, e.outputsOf args⟩] }

/-- Modelled from the spec: `execute(order)` walks the resolved order,
executing each entry in turn; the first failure aborts the remaining order
(fail-fast). -/
def executeList (reg : Registry) :
    List String → RunState → Except (BuildError × RunState) RunState
  | [], st => .ok st
  | n :: rest, st =>
    match lookupEntry reg n with
    | none => .error (.unknownDependency n, st)
    | some e =>
      match executeEntry e st with
      | .error err => .error err
      | .ok st1 => executeList reg rest st1

/-! ### Entry point -/

/-- Modelled from the spec: the registry's default task, if any. -/
def defaultTarget (reg : Registry) : Option String :=
  (reg.find? (fun e => e.isDefault)).map (·.name)

/-- Resolve a target and execute the resolved order. -/
def execTarget (reg : Registry) (target : String) (st : RunState) :
    Except (BuildError × RunState) RunState :=
  match resolve reg target with
  | .error err => .error (err, st)
  | .ok order => executeList reg order st

/-- Modelled from the spec: `build(requestedName=None)` — with no requested
name the registry's single default task is used (`NoDefaultTaskError` when
none exists); the chosen target is resolved and executed. -/
def buildRun (reg : Registry) (requested : Option String) (st : RunState) :
    Except (BuildError × RunState) RunState :=
  match requested with
  | some n => execTarget reg n st
  | none =>
    match defaultTarget reg with
    | none => .error (.noDefaultTask, st)
    | some n => execTarget reg n st

/-! ## The recipe (src/build.py)

The five declarations of `build.py`, embedded as registry entries.  The
parameter names are the Python functions' parameter names; the bodies follow
the Python bodies. -/

/-- `@provide def cd_local(): os.chdir(Path(__file__).absolute().parent)` —
returns `None`, acts only by changing the working directory to the script's
directory. -/
def cd_localEntry : EntrySpec :=
  { name := "cd_local", kind := Kind.provider, params := [],
    isDefault := false,
    outputsOf := fun _ => [], inputsOf := fun _ => [],
    fn := fun _ fs => .ok (Value.unit, { fs with cwd := scriptDir }),
    synth := fun _ => Value.unit }

/-- `@provide def sources(cd_local): return Path.cwd().glob("*.cc")` — the
body never uses the `cd_local` parameter. -/
def sourcesEntry : EntrySpec :=
  { name := "sources", kind := Kind.provider, params := ["cd_local"],
    isDefault := false,
    outputsOf := fun _ => [], inputsOf := fun _ => [],
    fn := fun _ fs => .ok (Value.paths (glob fs ".cc"), fs),
    synth := fun _ => Value.unit }

/-- `@provide def headers(cd_local): return Path.cwd().glob("*.h")` — the
body never uses the `cd_local` parameter. -/
def headersEntry : EntrySpec :=
  { name := "headers", kind := Kind.provider, params := ["cd_local"],
    isDefault := false,
    outputsOf := fun _ => [], inputsOf := fun _ => [],
    fn := fun _ fs => .ok (Value.paths (glob fs ".h"), fs),
    synth := fun _ => Value.unit }

/-- The list of compile calls `objects` builds:
`[compile(src, headers=headers, obj=True) for src in sources]`. -/
def objectsValue (srcs hdrs : List String) : List CompileCall :=
  srcs.map (fun s => objCall s hdrs)

/-- `@task def objects(sources, headers): ...` — maps `compile(·,
headers=headers, obj=True)` over the sources.  Its artifact declares the
object files as outputs and the source and header files as inputs. -/
def objectsEntry : EntrySpec :=
  { name := "objects", kind := Kind.task, params := ["sources", "headers"],
    isDefault := false,
    outputsOf := fun args =>
      match args with
      | [Value.paths srcs, _] => srcs.map objPath
      | _ => [],
    inputsOf := fun args =>
      match args with
      | [Value.paths srcs, Value.paths hdrs] => srcs ++ hdrs
      | _ => [],
    fn := fun args fs =>
      match args with
      | [Value.paths srcs, Value.paths hdrs] =>
        .ok (Value.calls (objectsValue srcs hdrs), fs)
      | _ => .error "objects: bad arguments",
    synth := fun args =>
      match args with
      | [Value.paths srcs, Value.paths hdrs] =>
        Value.calls (objectsValue srcs hdrs)
      | _ => Value.unit }

/-- `@task(default=True) def executable(objects): return
compile(objects.components(), target="hasher", env=LINK_ENV)`.  Its artifact
declares the linked `hasher` as its output and the object files as its
inputs. -/
def executableEntry : EntrySpec :=
  { name := "executable", kind := Kind.task, params := ["objects"],
    isDefault := true,
    outputsOf := fun _ => [scriptDir ++ "hasher"],
    inputsOf := fun args =>
      match args with
      | [v] => componentsOf v
      | _ => [],
    fn := fun args fs =>
      match args with
      | [v] => .ok (Value.call (linkCall (componentsOf v)), fs)
      | _ => .error "executable: bad arguments",
    synth := fun args =>
      match args with
      | [v] => Value.call (linkCall (componentsOf v))
      | _ => Value.unit }

/-- The recipe's registry, in declaration order of `build.py`. -/
def recipeReg : Registry :=
  [cd_localEntry, sourcesEntry, headersEntry, objectsEntry, executableEntry]

/-- The declared names of the recipe. -/
def recipeNames : List String :=
  ["cd_local", "sources", "headers", "objects", "executable"]

/-- The initial run state over a filesystem. -/
def initState (fs : FS) : RunState :=
  { record := [], fs := fs, invoked := [] }

/-! ## Concrete filesystems used to exercise the recipe -/

/-- A source tree before any build: two sources and one header, no build
artifacts. -/
def fsFresh : FS :=
  { cwd := "",
    files := [⟨"src/", "a", ".cc", 1⟩, ⟨"src/", "b", ".cc", 1⟩,
              ⟨"src/", "a", ".h", 1⟩],
    clock := 2 }

/-- The source tree after a completed build: every object file and the
linked executable are newer than every source and header. -/
def fsBuilt : FS :=
  { cwd := "",
    files := [⟨"src/", "a", ".cc", 1⟩, ⟨"src/", "b", ".cc", 1⟩,
              ⟨"src/", "a", ".h", 1⟩,
              ⟨"", "src/a.cc.o", "", 5⟩, ⟨"", "src/b.cc.o", "", 5⟩,
              ⟨"", "src/hasher", "", 6⟩],
    clock := 7 }

/-! ## Helper predicates -/

/-- `true` on `Except.ok`. -/
def isOkB {ε α : Type} : Except ε α → Bool
  | .ok _ => true
  | .error _ => false

/-- Every dependency of every entry of `order` appears in `order` strictly
before its dependent. -/
def topoOrderedB (reg : Registry) (order : List String) : Bool :=
  order.all (fun n =>
    match lookupEntry reg n with
    | some e => e.params.all (fun p => order.indexOf p < order.indexOf n)
    | none => false)

instance {ε α : Type} [DecidableEq ε] [DecidableEq α] : DecidableEq (Except ε α)
  | .ok a, .ok b =>
    if h : a = b then .isTrue (by rw [h])
    else .isFalse (by intro hc; cases hc; exact h rfl)
  | .ok _, .error _ => .isFalse (by intro hc; cases hc)
  | .error _, .ok _ => .isFalse (by intro hc; cases hc)
  | .error a, .error b =>
    if h : a = b then .isTrue (by rw [h])
    else .isFalse (by intro hc; cases hc; exact h rfl)

/-! ## Execution-record lemmas -/

theorem lookupRecord_append (rec l : List RecordEntry) (n : String) :
    lookupRecord (rec ++ l) n = (lookupRecord rec n).or (lookupRecord l n) := by
  simp [lookupRecord, List.find?_append]

theorem lookupRecord_append_isSome {rec : List RecordEntry} {n : String}
    (l : List RecordEntry) (h : (lookupRecord rec n).isSome = true) :
    (lookupRecord (rec ++ l) n).isSome = true := by
  rw [lookupRecord_append]
  cases hx : lookupRecord rec n with
  | none => rw [hx] at h; simp at h
  | some r => simp [Option.or]

theorem lookupRecord_append_self (rec : List RecordEntry) (r : RecordEntry) :
    (lookupRecord (rec ++ [r]) r.name).isSome = true := by
  rw [lookupRecord_append]
  cases hx : lookupRecord rec r.name with
  | none => simp [Option.or, lookupRecord, List.find?]
  | some x => simp [Option.or]

/-- The run-state invariant behind memoization: the invocation log has no
duplicates, and everything invoked is recorded. -/
def InvokedOnceInv (st : RunState) : Prop :=
  st.invoked.Nodup ∧ ∀ n ∈ st.invoked, (lookupRecord st.record n).isSome = true

theorem executeEntry_preserves_inv {e : EntrySpec} {st st1 : RunState}
    (h : executeEntry e st = .ok st1) (hinv : InvokedOnceInv st) :
    InvokedOnceInv st1 := by
  unfold executeEntry at h
  by_cases hrec : (lookupRecord st.record e.name).isSome = true
  · rw [if_pos hrec] at h
    cases h
    exact hinv
  · rw [if_neg hrec] at h
    cases hargs : gatherArgs st.record e.params with
    | none => rw [hargs] at h; cases h
    | some args =>
      rw [hargs] at h
      dsimp only at h
      by_cases hstale : staleDecision st e args = true
      · rw [if_pos hstale] at h
        cases hfn : e.fn args st.fs with
        | error msg => rw [hfn] at h; cases h
        | ok p =>
          obtain ⟨v, fs1⟩ := p
          rw [hfn] at h
          dsimp only at h
          cases h
          have hnotin : e.name ∉ st.invoked := fun hmem =>
            hrec (hinv.2 e.name hmem)
          constructor
          · simp [List.nodup_append, hinv.1, hnotin]
          · intro n hn
            rcases List.mem_append.1 hn with hn1 | hn2
            · exact lookupRecord_append_isSome _ (hinv.2 n hn1)
            · have : n = e.name := by simpa using hn2
              subst this
              exact lookupRecord_append_self st.record
                ⟨e.name, v, true, e.outputsOf args⟩
      · rw [if_neg hstale] at h
        cases h
        exact ⟨hinv.1, fun n hn =>
          lookupRecord_append_isSome _ (hinv.2 n hn)⟩

theorem executeList_preserves_inv {reg : Registry} {order : List String} :
    ∀ {st st1 : RunState}, executeList reg order st = .ok st1 →
      InvokedOnceInv st → InvokedOnceInv st1 := by
  induction order with
  | nil => intro st st1 h hinv; cases h; exact hinv
  | cons n rest ih =>
    intro st st1 h hinv
    unfold executeList at h
    cases hl : lookupEntry reg n with
    | none => rw [hl] at h; cases h
    | some e =>
      rw [hl] at h
      dsimp only at h
      cases he : executeEntry e st with
      | error err => rw [he] at h; cases h
      | ok st2 =>
        rw [he] at h
        dsimp only at h
        exact ih h (executeEntry_preserves_inv he hinv)

/-! ## Theorems -/

/-- C2: for every declared target of the recipe, `resolve` returns a
topological order (every dependency strictly precedes its dependent),
dependencies are visited in parameter declaration order, and the result is
the same on repeated calls; for the target `executable` the order is
`[cd_local, sources, headers, objects, executable]`, with `sources` before
`headers` because of the parameter order of `objects`. -/
theorem resolve_recipe_topological_order :
    (resolve recipeReg "executable" =
      .ok ["cd_local", "sources", "headers", "objects", "executable"])
    ∧ ((recipeNames.all (fun t =>
        match resolve recipeReg t with
        | .ok order => topoOrderedB recipeReg order
        | .error _ => false)) = true)
    ∧ (∀ t : String, resolve recipeReg t = resolve recipeReg t) :=
  ⟨by decide, by decide, fun _ => rfl⟩

/-- C1: within one execution run each entry's underlying function is invoked
at most once, however many downstream entries depend on it; concretely, a
full run of the recipe's `executable` target over a fresh source tree
invokes the shared provider `cd_local` exactly once, and its value is cached
in a single record entry shared by both `sources` and `headers`. -/
theorem entry_invoked_at_most_once :
    (∀ (reg : Registry) (order : List String) (fs : FS) (st : RunState),
        executeList reg order (initState fs) = .ok st →
        ∀ n : String, st.invoked.count n ≤ 1)
    ∧ ((execTarget recipeReg "executable" (initState fsFresh)).toOption.map
        (fun st => (st.invoked.count "cd_local",
          (st.record.filter (fun r => r.name = "cd_local")).length)) =
        some (1, 1)) := by
  constructor
  · intro reg order fs st h n
    have hinv : InvokedOnceInv st :=
      executeList_preserves_inv h
        ⟨List.nodup_nil, fun m hm => absurd hm (List.not_mem_nil m)⟩
    exact List.nodup_iff_count_le_one.1 hinv.1 n
  · decide

/-- The state resulting from executing just `cd_local` over the fresh tree;
used to witness `entry_invoked_at_most_once`. -/
def stCdRun : RunState :=
  { record := [⟨"cd_local", Value.unit, true, []⟩],
    fs := { cwd := "src/", files := fsFresh.files, clock := 3 },
    invoked := ["cd_local"] }

/-- Witness for `entry_invoked_at_most_once` at a concrete run. -/
theorem entry_invoked_at_most_once_witness :
    stCdRun.invoked.count "cd_local" ≤ 1 :=
  entry_invoked_at_most_once.1 [cd_localEntry] ["cd_local"] fsFresh stCdRun
    (by decide) "cd_local"

theorem olderThan_eq_true {fs : FS} {o i : String} :
    olderThan fs o i = true ↔
      ∃ a b, mtimeOf fs o = some a ∧ mtimeOf fs i = some b ∧ a < b := by
  unfold olderThan
  cases ho : mtimeOf fs o <;> cases hi : mtimeOf fs i <;> simp

/-- C3: a file-backed task is stale — its function is re-invoked — exactly
when some declared output is missing, or some declared output is older than
some declared input, or some declared input was just (re)produced by an
upstream task executed this run; under that decision the executor either
re-invokes the function (logging the invocation) or synthesizes the result
without invoking it. -/
theorem task_stale_iff (e : EntrySpec) (st : RunState) (args : List Value)
    (hk : e.kind = Kind.task) (hne : e.outputsOf args ≠ [])
    (hrec : lookupRecord st.record e.name = none)
    (hargs : gatherArgs st.record e.params = some args) :
    (staleDecision st e args = true ↔
      ((∃ o ∈ e.outputsOf args, mtimeOf st.fs o = none) ∨
       (∃ o ∈ e.outputsOf args, ∃ i ∈ e.inputsOf args, ∃ a b,
          mtimeOf st.fs o = some a ∧ mtimeOf st.fs i = some b ∧ a < b) ∨
       freshInputs st.record (e.inputsOf args) = true))
    ∧ (staleDecision st e args = false →
        executeEntry e st = .ok { st with
          record := st.record ++
            [⟨e.name, e.synth args, false, e.outputsOf args⟩] })
    ∧ (∀ (v : Value) (fs1 : FS),
        e.fn args st.fs = .ok (v, fs1) → staleDecision st e args = true →
        executeEntry e st = .ok
          { record := st.record ++ [⟨e.name, v, true, e.outputsOf args⟩],
            fs := writeOuts fs1 (e.outputsOf args),
            invoked := st.invoked ++ [e.name] }) := by
  refine ⟨?_, ?_, ?_⟩
  · unfold staleDecision
    rw [hk]
    dsimp only
    have hxne : (e.outputsOf args).isEmpty = false := by
      cases hx : e.outputsOf args with
      | nil => exact absurd hx hne
      | cons y ys => rfl
    rw [hxne, Bool.false_or]
    simp [isStale, List.any_eq_true, olderThan_eq_true,
      Option.isNone_iff_eq_none, or_assoc]
  · intro hstale
    simp [executeEntry, hrec, hargs, hstale]
  · intro v fs1 hfn hstale
    simp [executeEntry, hrec, hargs, hstale, hfn]

/-- A run state in which the recorded upstream task `"upstream"` was just
re-executed and produced `src/a.cc`; used to witness `task_stale_iff`. -/
def stThirdCase : RunState :=
  { record := [⟨"sources", Value.paths ["src/a.cc"], false, []⟩,
               ⟨"headers", Value.paths [], false, []⟩,
               ⟨"upstream", Value.unit, true, ["src/a.cc"]⟩],
    fs := fsBuilt, invoked := [] }

/-- The gathered arguments of `objects` in `stThirdCase`. -/
def argsThirdCase : List Value :=
  [Value.paths ["src/a.cc"], Value.paths []]

/-- Witness for `task_stale_iff`: over `fsBuilt` the output `src/a.cc.o` is
newer than the input `src/a.cc`, yet `objects` is stale because the input
was just rebuilt upstream. -/
theorem task_stale_iff_witness :
    staleDecision stThirdCase objectsEntry argsThirdCase = true :=
  (task_stale_iff objectsEntry stThirdCase argsThirdCase rfl (by decide)
      (by decide) (by decide)).1.mpr (Or.inr (Or.inr (by decide)))

/-- C4: a task whose declared outputs all exist with modification times at
least those of all its declared inputs, none of which was rebuilt this run,
is not re-invoked: its result is synthesized from the existing files.  On
the recipe, re-running `build()` over the already-built tree re-invokes only
the three providers — `objects` and `executable` are skipped. -/
theorem no_op_rebuild :
    (∀ (e : EntrySpec) (st : RunState) (args : List Value),
      e.kind = Kind.task →
      e.outputsOf args ≠ [] →
      lookupRecord st.record e.name = none →
      gatherArgs st.record e.params = some args →
      (∀ o ∈ e.outputsOf args, mtimeOf st.fs o ≠ none) →
      (∀ o ∈ e.outputsOf args, ∀ i ∈ e.inputsOf args,
        (mtimeOf st.fs i).getD 0 ≤ (mtimeOf st.fs o).getD 0) →
      freshInputs st.record (e.inputsOf args) = false →
      executeEntry e st = .ok { st with
        record := st.record ++
          [⟨e.name, e.synth args, false, e.outputsOf args⟩] })
    ∧ ((buildRun recipeReg none (initState fsBuilt)).toOption.map
        (fun st => st.invoked) = some ["cd_local", "sources", "headers"]) := by
  constructor
  · intro e st args hk hne hrec hargs hpresent hnewer hfresh
    have hstale : staleDecision st e args = false := by
      unfold staleDecision
      rw [hk]
      dsimp only
      cases hx : (e.outputsOf args).isEmpty
      · rw [Bool.false_or]
        unfold isStale
        rw [hfresh]
        have h1 : (e.outputsOf args).any
            (fun o => (mtimeOf st.fs o).isNone) = false := by
          rw [List.any_eq_false]
          intro o ho
          have := hpresent o ho
          cases hm : mtimeOf st.fs o with
          | none => exact absurd hm this
          | some a => simp
        have h2 : (e.outputsOf args).any
            (fun o => (e.inputsOf args).any
              (fun i => olderThan st.fs o i)) = false := by
          rw [List.any_eq_false]
          intro o ho
          rw [Bool.not_eq_true, List.any_eq_false]
          intro i hi
          intro hold
          rcases olderThan_eq_true.1 hold with ⟨a, b, hma, hmb, hab⟩
          have := hnewer o ho i hi
          rw [hma, hmb] at this
          simp at this
          omega
        rw [h1, h2]
        rfl
      · exact absurd (List.isEmpty_iff.1 hx) hne
    exact (by simp [executeEntry, hrec, hargs, hstale])
  · decide

/-- The run state just before `objects` executes over the already-built
tree; used to witness `no_op_rebuild`. -/
def stNoOp : RunState :=
  { record := [⟨"sources", Value.paths ["src/a.cc", "src/b.cc"], false, []⟩,
               ⟨"headers", Value.paths ["src/a.h"], false, []⟩],
    fs := fsBuilt, invoked := [] }

/-- The gathered arguments of `objects` in `stNoOp`. -/
def argsNoOp : List Value :=
  [Value.paths ["src/a.cc", "src/b.cc"], Value.paths ["src/a.h"]]

/-- Witness for `no_op_rebuild`: over the built tree `objects` is
synthesized, not re-invoked. -/
theorem no_op_rebuild_witness :
    executeEntry objectsEntry stNoOp = .ok { stNoOp with
      record := stNoOp.record ++
        [⟨objectsEntry.name, objectsEntry.synth argsNoOp, false,
          objectsEntry.outputsOf argsNoOp⟩] } :=
  no_op_rebuild.1 objectsEntry stNoOp argsNoOp rfl (by decide) (by decide)
    (by decide) (by decide) (by decide) (by decide)

/-- C5: `register` refuses a second default entry (`DuplicateDefaultError`);
the recipe marks exactly one entry, `executable`, as default, so `build()`
with no requested name resolves and executes the `executable` target. -/
theorem default_task_selection :
    (∀ (reg : Registry) (e : EntrySpec),
        reg.any (fun d => d.name = e.name) = false →
        reg.any (fun d => d.isDefault) = true →
        e.isDefault = true →
        register reg e = .error (.duplicateDefault e.name))
    ∧ ((recipeReg.filter (fun e => e.isDefault)).map (fun e => e.name) =
        ["executable"])
    ∧ (defaultTarget recipeReg = some "executable")
    ∧ (∀ st : RunState,
        buildRun recipeReg none st = execTarget recipeReg "executable" st) := by
  refine ⟨?_, by decide, by decide, fun st => rfl⟩
  intro reg e h1 h2 h3
  simp [register, h1, h2, h3]

/-- A second default-flagged entry; used to witness
`default_task_selection`. -/
def secondDefaultEntry : EntrySpec :=
  { cd_localEntry with name := "other_default", isDefault := true }

/-- Witness for `default_task_selection`: registering a second default
entry next to `executable` fails with `DuplicateDefaultError`. -/
theorem default_task_selection_witness :
    register [executableEntry] secondDefaultEntry =
      .error (.duplicateDefault "other_default") :=
  default_task_selection.1 [executableEntry] secondDefaultEntry
    (by decide) (by decide) rfl

theorem executeList_append (reg : Registry) (l1 l2 : List String)
    (st : RunState) :
    executeList reg (l1 ++ l2) st =
      match executeList reg l1 st with
      | .error err => .error err
      | .ok st1 => executeList reg l2 st1 := by
  induction l1 generalizing st with
  | nil => rfl
  | cons n rest ih =>
    dsimp only [List.cons_append, executeList]
    cases lookupEntry reg n with
    | none => rfl
    | some e =>
      dsimp only
      cases executeEntry e st with
      | error err => rfl
      | ok st1 => exact ih st1

/-- C7: a failure of an entry's underlying function is wrapped as
`TaskExecutionError` carrying the entry name and the original failure; it
aborts the rest of the topological order (whatever entries follow, they are
never executed), and the run state reached before the failure — including
the artifacts already on disk — is carried out unchanged (no rollback). -/
theorem task_failure_fail_fast :
    ∀ (reg : Registry) (pre rest : List String) (n : String)
      (st stPre : RunState) (e : EntrySpec) (msg : String) (args : List Value),
      executeList reg pre st = .ok stPre →
      lookupEntry reg n = some e →
      lookupRecord stPre.record e.name = none →
      gatherArgs stPre.record e.params = some args →
      staleDecision stPre e args = true →
      e.fn args stPre.fs = .error msg →
      executeList reg (pre ++ n :: rest) st =
        .error (.taskExecution e.name msg, stPre) := by
  intro reg pre rest n st stPre e msg args hpre hl hrec hargs hstale hfn
  rw [executeList_append, hpre]
  dsimp only [executeList]
  rw [hl]
  dsimp only
  have he : executeEntry e stPre = .error (.taskExecution e.name msg, stPre) := by
    simp [executeEntry, hrec, hargs, hstale, hfn]
  rw [he]

/-- An always-failing provider; used to witness `task_failure_fail_fast`. -/
def boomEntry : EntrySpec :=
  { name := "boom", kind := Kind.provider, params := [], isDefault := false,
    outputsOf := fun _ => [], inputsOf := fun _ => [],
    fn := fun _ _ => .error "kaboom", synth := fun _ => Value.unit }

/-- Witness for `task_failure_fail_fast`: the failure of `boom` is wrapped
with its name and message, the following entry is never reached, and the
prior state is carried out. -/
theorem task_failure_fail_fast_witness :
    executeList [boomEntry] ([] ++ "boom" :: ["later"]) (initState fsFresh) =
      .error (.taskExecution "boom" "kaboom", initState fsFresh) :=
  task_failure_fail_fast [boomEntry] [] ["later"] "boom"
    (initState fsFresh) (initState fsFresh) boomEntry "kaboom" []
    rfl rfl rfl rfl rfl rfl

/-- C6: requesting any unregistered name fails with
`UnknownDependencyError` identifying that name; every parameter name used by
a registry entry of the recipe resolves to exactly one registry entry,
resolving any declared target succeeds (raises no
`UnknownDependencyError`), and resolving the undeclared name
`"nonexistent"` fails with `UnknownDependencyError` identifying it. -/
theorem resolve_unknown_dependency_behaviour :
    (∀ (reg : Registry) (n : String), lookupEntry reg n = none →
        resolve reg n = .error (.unknownDependency n))
    ∧ (((recipeReg.map (fun e => e.params)).flatten).all
        (fun p => (recipeReg.filter (fun e => e.name = p)).length = 1) = true)
    ∧ ((recipeNames.all (fun t => isOkB (resolve recipeReg t))) = true)
    ∧ (resolve recipeReg "nonexistent" =
        .error (.unknownDependency "nonexistent")) := by
  refine ⟨?_, by decide, by decide, by decide⟩
  intro reg n h
  simp [resolve, resolveAux, h]

/-- Witness for `resolve_unknown_dependency_behaviour` at a concrete
unregistered target name. -/
theorem resolve_unknown_dependency_behaviour_witness :
    resolve recipeReg "missing_target" =
      .error (.unknownDependency "missing_target") :=
  resolve_unknown_dependency_behaviour.1 recipeReg "missing_target" rfl


/-- C8: the `sources` and `headers` providers never use the value bound to
their `cd_local` parameter — their results agree for any two values bound to
it, given the same working-directory and filesystem state — and `cd_local`
itself returns `None`, acting only by setting the working directory to the
script's directory. -/
theorem cd_local_value_noninterference :
    (∀ (v1 v2 : Value) (fs : FS),
        sourcesEntry.fn [v1] fs = sourcesEntry.fn [v2] fs)
    ∧ (∀ (v1 v2 : Value) (fs : FS),
        headersEntry.fn [v1] fs = headersEntry.fn [v2] fs)
    ∧ (∀ fs : FS, cd_localEntry.fn [] fs =
        .ok (Value.unit, { fs with cwd := scriptDir })) :=
  ⟨fun _ _ _ => rfl, fun _ _ _ => rfl, fun _ => rfl⟩

/-- C9: `objects` maps the compile step one-to-one over its sources: it
returns one compile call per source, in order — the i-th call compiles the
i-th source — and every call carries `obj = True` and the same `headers`
value. -/
theorem objects_maps_compile_one_to_one :
    ∀ (srcs hdrs : List String) (fs : FS),
      (objectsEntry.fn [Value.paths srcs, Value.paths hdrs] fs =
        .ok (Value.calls (objectsValue srcs hdrs), fs))
      ∧ ((objectsValue srcs hdrs).length = srcs.length)
      ∧ (∀ i : Nat, (objectsValue srcs hdrs)[i]? =
          (srcs[i]?).map (fun s => objCall s hdrs))
      ∧ (∀ s : String, (objCall s hdrs).obj = true ∧
          (objCall s hdrs).headers = hdrs) := by
  intro srcs hdrs fs
  refine ⟨rfl, by simp [objectsValue], fun i => ?_, fun s => ⟨rfl, rfl⟩⟩
  simp [objectsValue]

/-- C10: only the executable link step receives `-lcrypto`: building
`LINK_ENV` copies the base environment object into a fresh cell and appends
`-lcrypto` to the copy's `LDFLAGS`, leaving the base object untouched;
`executable` compiles with target `"hasher"` under `LINK_ENV`, while the
`objects` compile calls pass no environment (they use the implicit base). -/
theorem linker_flag_only_executable :
    ∀ (st : Store) (r : Nat), r < st.length →
      ((linkEnvInit st r).1[r]? = st[r]?)
      ∧ ((linkEnvInit st r).2 ≠ r)
      ∧ ((linkEnvInit st r).1[(linkEnvInit st r).2]? =
          some (envAppend (st.getD r ⟨[]⟩) "LDFLAGS" "-lcrypto"))
      ∧ (∀ (e : Env) (k v : String),
          lookupVar (envAppend e k v) k = lookupVar e k ++ [v])
      ∧ (lookupVar LINK_ENV "LDFLAGS" =
          lookupVar ENV "LDFLAGS" ++ ["-lcrypto"])
      ∧ (∀ objs : List String, (linkCall objs).target = some "hasher" ∧
          (linkCall objs).env = some LINK_ENV)
      ∧ (∀ (s : String) (hs : List String), (objCall s hs).env = none) := by
  intro st r hr
  refine ⟨?_, Nat.ne_of_gt hr, ?_, ?_, by decide, fun objs => ⟨rfl, rfl⟩,
    fun _ _ => rfl⟩
  · simp only [linkEnvInit, storeCopyAlloc, storeAppendAt]
    rw [List.getElem?_set_ne (Nat.ne_of_gt hr)]
    exact List.getElem?_append_left hr
  · simp only [linkEnvInit, storeCopyAlloc, storeAppendAt]
    rw [List.getElem?_set_self', List.getElem?_concat_length]
    simp [Function.const, List.getD, List.getElem?_concat_length]
  · intro e k v
    simp [lookupVar, envAppend]

/-- Witness for `linker_flag_only_executable` at the one-object store
holding the base environment. -/
theorem linker_flag_only_executable_witness :
    ((linkEnvInit [ENV] 0).1[0]? = some ENV)
    ∧ ((linkEnvInit [ENV] 0).2 ≠ 0) :=
  ⟨by
    have h := (linker_flag_only_executable [ENV] 0 (by decide)).1
    rw [h]
    rfl,
   (linker_flag_only_executable [ENV] 0 (by decide)).2.1⟩
